import Mathlib

/-!
Verification of the pyart radar-volume core: the ODIM_H5 volume decoder
(`pyart/aux_io/odim_h5.py`) and the Universal Format ray encoder
(`pyart/io/write_uf.py`).  Each definition is a shallow embedding of the
corresponding Python code; theorems settle the specification claims.
-/

namespace OdimH5

/-- Running inclusive prefix sums with an accumulator; helper for `cumsum`. -/
def cumsumAux (acc : Int) : List Int → List Int
  | [] => []
  | x :: xs => (acc + x) :: cumsumAux (acc + x) xs

/-- Inclusive prefix sums, mirroring `np.cumsum` on a 1-d array. -/
def cumsum (xs : List Int) : List Int := cumsumAux 0 xs

/-- Embedding of `odim_h5.py` line 148:
`ssri = np.cumsum(np.append([0], rays_per_sweep[:-1])).astype('int32')`. -/
def ssri (raysPerSweep : List Nat) : List Int :=
  cumsum ((0 :: raysPerSweep.dropLast).map fun n : Nat => (n : Int))

/-- Embedding of `odim_h5.py` line 149:
`seri = np.cumsum(rays_per_sweep).astype('int32') - 1`. -/
def seri (raysPerSweep : List Nat) : List Int :=
  (cumsum (raysPerSweep.map fun n : Nat => (n : Int))).map (fun x => x - 1)

/-- Embedding of `odim_h5.py` line 147: `total_rays = sum(rays_per_sweep)`. -/
def totalRays (raysPerSweep : List Nat) : Nat := raysPerSweep.sum

theorem cumsumAux_length (xs : List Int) (acc : Int) :
    (cumsumAux acc xs).length = xs.length := by
  induction xs generalizing acc with
  | nil => rfl
  | cons x xs ih => simp [cumsumAux, ih]

theorem cumsumAux_getElem? (xs : List Int) (acc : Int) (i : Nat)
    (h : i < xs.length) :
    (cumsumAux acc xs)[i]? = some (acc + (xs.take (i + 1)).sum) := by
  induction xs generalizing acc i with
  | nil => simp at h
  | cons x xs ih =>
    cases i with
    | zero => simp [cumsumAux]
    | succ j =>
      have hj : j < xs.length := by simpa using h
      rw [cumsumAux, List.getElem?_cons_succ, ih (acc + x) j hj]
      simp [List.sum_cons, add_assoc]

theorem cumsum_getElem? (xs : List Int) (i : Nat) (h : i < xs.length) :
    (cumsum xs)[i]? = some ((xs.take (i + 1)).sum) := by
  rw [cumsum, cumsumAux_getElem? xs 0 i h, zero_add]

theorem ssri_length (rps : List Nat) (h : 0 < rps.length) :
    (ssri rps).length = rps.length := by
  rw [ssri, cumsum, cumsumAux_length, List.length_map, List.length_cons,
    List.length_dropLast]
  omega

theorem seri_length (rps : List Nat) : (seri rps).length = rps.length := by
  rw [seri, List.length_map, cumsum, cumsumAux_length, List.length_map]

theorem ssri_getElem? (rps : List Nat) (i : Nat) (h : i < rps.length) :
    (ssri rps)[i]? = some (((rps.take i).sum : Int)) := by
  have hlen : i < ((0 :: rps.dropLast).map fun n : Nat => (n : Int)).length := by
    rw [List.length_map, List.length_cons, List.length_dropLast]
    omega
  rw [ssri, cumsum_getElem? _ i hlen]
  congr 1
  rw [List.map_cons, List.take_succ_cons, List.sum_cons]
  simp only [Nat.cast_zero, zero_add]
  rw [← List.map_take, List.dropLast_eq_take, List.take_take]
  have hmin : min i (rps.length - 1) = i := by omega
  rw [hmin, Nat.cast_list_sum]

theorem seri_getElem? (rps : List Nat) (i : Nat) (h : i < rps.length) :
    (seri rps)[i]? = some (((rps.take (i + 1)).sum : Int) - 1) := by
  have hlen : i < (rps.map fun n : Nat => (n : Int)).length := by
    rw [List.length_map]; exact h
  rw [seri, List.getElem?_map, cumsum_getElem? _ i hlen, ← List.map_take,
    ← Nat.cast_list_sum]
  rfl

/-- C4: for every decoded volume with n >= 1 sweeps, sweep_start_ray_index[0] = 0,
sweep_end_ray_index[n-1] = ray_count - 1, and sweep_start_ray_index[i] =
sweep_end_ray_index[i-1] + 1 for every 0 < i < n, with ray_count equal to the sum
of the per-sweep ray counts; hence the per-sweep inclusive index ranges tile
[0, ray_count) contiguously with no gaps or overlaps. -/
theorem sweep_index_partition (rps : List Nat) (h : 0 < rps.length) :
    (ssri rps).length = rps.length ∧
    (seri rps).length = rps.length ∧
    (ssri rps)[0]? = some 0 ∧
    (seri rps)[rps.length - 1]? = some ((totalRays rps : Int) - 1) ∧
    (∀ i, 0 < i → i < rps.length →
      (ssri rps)[i]? = ((seri rps)[i - 1]?).map (fun x => x + 1)) ∧
    totalRays rps = rps.sum := by
  refine ⟨ssri_length rps h, seri_length rps, ?_, ?_, ?_, rfl⟩
  · rw [ssri_getElem? rps 0 h]
    simp
  · have hn : rps.length - 1 < rps.length := by omega
    rw [seri_getElem? rps _ hn]
    have : rps.length - 1 + 1 = rps.length := by omega
    rw [this, List.take_length]
    rfl
  · intro i hi hilt
    have hi1 : i - 1 < rps.length := by omega
    rw [ssri_getElem? rps i hilt, seri_getElem? rps _ hi1]
    have : i - 1 + 1 = i := by omega
    rw [this]
    simp only [Option.map]
    congr 1
    ring

/-- Witness for C4 at a concrete volume with two sweeps of 3 and 4 rays. -/
theorem sweep_index_partition_witness :
    0 < ([3, 4] : List Nat).length ∧
    ((ssri [3, 4]).length = ([3, 4] : List Nat).length ∧
    (seri [3, 4]).length = ([3, 4] : List Nat).length ∧
    (ssri [3, 4])[0]? = some 0 ∧
    (seri [3, 4])[([3, 4] : List Nat).length - 1]? =
      some ((totalRays [3, 4] : Int) - 1) ∧
    (∀ i, 0 < i → i < ([3, 4] : List Nat).length →
      (ssri [3, 4])[i]? = ((seri [3, 4])[i - 1]?).map (fun x => x + 1)) ∧
    totalRays [3, 4] = ([3, 4] : List Nat).sum) :=
  ⟨by decide, sweep_index_partition [3, 4] (by decide)⟩

/-- Truncation toward zero on rationals: the cast numpy applies when float64
values are assigned into an int32 array, as in `t_data[start:stop+1] = ...`
(odim_h5.py line 246, with `t_data = np.empty(..., dtype=int32)` at line 232). -/
def ratTrunc (q : Rat) : Int := if 0 ≤ q then ⌊q⌋ else -⌊-q⌋

/-- Embedding of `np.linspace(0, d, n)`: n evenly spaced samples from 0 to d
inclusive, with the float arithmetic idealized as exact rationals. -/
def linspace0 (d : Rat) (n : Nat) : List Rat :=
  (List.range n).map fun i : Nat =>
    if n = 1 then 0 else d * (i : Rat) / ((n : Rat) - 1)

/-- Per-sweep inputs of the fallback time branch of `read_odim_h5`
(odim_h5.py lines 234-247): the sweep start and end wall-clock times parsed
from startdate/starttime and enddate/endtime as whole seconds since 1970-01-01
(the code's `sweep_start_epoch`, and `delta_seconds` as the difference), plus
the sweep's ray count. -/
structure SweepTimeMeta where
  startEpoch : Int
  endEpoch : Int
  nrays : Nat

/-- Embedding of odim_h5.py lines 241-247 for one sweep:
`t_data[start:stop+1] = sweep_start_epoch + np.linspace(0, delta_seconds, rays)`;
the int32 dtype of `t_data` truncates each interpolated value toward zero. -/
def sweepFallbackTimes (s : SweepTimeMeta) : List Int :=
  (linspace0 (((s.endEpoch - s.startEpoch : Int) : Rat)) s.nrays).map
    fun q => ratTrunc ((s.startEpoch : Rat) + q)

/-- Embedding of odim_h5.py lines 232-247: the whole int32 `t_data` array, the
per-sweep slices concatenated in sweep order. -/
def fallbackTimeData (sweeps : List SweepTimeMeta) : List Int :=
  sweeps.flatMap sweepFallbackTimes

/-- Embedding of odim_h5.py line 248: `start_epoch = t_data.min()`. -/
def fallbackEpoch (sweeps : List SweepTimeMeta) : Int :=
  WithTop.untop' 0 (fallbackTimeData sweeps).minimum

/-- Embedding of odim_h5.py line 251: the stored time array
`(t_data - start_epoch).astype(float32)`; the int32 subtraction is exact and
the float32 cast is exact at volume time scales, so entries stay integers. -/
def fallbackStoredTimes (sweeps : List SweepTimeMeta) : List Int :=
  (fallbackTimeData sweeps).map (fun t => t - fallbackEpoch sweeps)

theorem sweepFallbackTimes_length (s : SweepTimeMeta) :
    (sweepFallbackTimes s).length = s.nrays := by
  rw [sweepFallbackTimes, List.length_map, linspace0, List.length_map,
    List.length_range]

/-- C1 counterexample: for the sweep starting 2020-01-01T00:00:00 (epoch
1577836800), ending 10 seconds later, with 5 rays, the decoder's int32 time
array truncates the interpolated values 2.5 and 7.5, so the stored ray-time
offsets are {0, 2, 5, 7, 10}, not the claimed {0, 2.5, 5, 7.5, 10}. -/
theorem fallback_time_truncation_counterexample :
    fallbackStoredTimes [⟨1577836800, 1577836810, 5⟩] = [0, 2, 5, 7, 10] ∧
    ((fallbackStoredTimes [⟨1577836800, 1577836810, 5⟩]).map
        (fun z : Int => (z : Rat))) ≠ [0, 5/2, 5, 15/2, 10] := by
  have h1 : fallbackTimeData [⟨1577836800, 1577836810, 5⟩] =
      [1577836800, 1577836802, 1577836805, 1577836807, 1577836810] := by
    simp only [fallbackTimeData, List.flatMap_cons, List.flatMap_nil,
      List.append_nil, sweepFallbackTimes, linspace0, List.map_map]
    norm_num [List.range_succ, ratTrunc, Int.floor_eq_iff]
  have h2 : fallbackEpoch [⟨1577836800, 1577836810, 5⟩] = 1577836800 := by
    rw [fallbackEpoch, h1]; decide
  have h3 : fallbackStoredTimes [⟨1577836800, 1577836810, 5⟩] =
      [0, 2, 5, 7, 10] := by
    rw [fallbackStoredTimes, h1, h2]; decide
  refine ⟨h3, ?_⟩
  rw [h3]
  intro hcl
  rw [List.map_cons, List.map_cons, List.map_cons] at hcl
  have := List.cons.injEq _ _ _ _ ▸ hcl
  simp only [List.cons.injEq] at hcl
  have h25 : ((2 : Int) : Rat) = 5/2 := hcl.2.1
  norm_num at h25

/-- C1 amended: when per-ray time samples are absent, the decoder interpolates
ray times linearly between each sweep's start and end wall-clock times but
stores them in an int32 array, truncating each value toward zero to a whole
second (so the 5-ray example yields offsets {0, 2, 5, 7, 10}); the global
epoch is the minimum time over all rays, and every ray's stored time is its
integer-second offset from that epoch (hence all stored times are nonnegative
and the smallest is 0). -/
theorem fallback_time_reconstruction (sweeps : List SweepTimeMeta)
    (hne : sweeps ≠ []) (hpos : ∀ s ∈ sweeps, 0 < s.nrays) :
    fallbackEpoch sweeps ∈ fallbackTimeData sweeps ∧
    (∀ t ∈ fallbackTimeData sweeps, fallbackEpoch sweeps ≤ t) ∧
    fallbackStoredTimes sweeps =
      (fallbackTimeData sweeps).map (fun t => t - fallbackEpoch sweeps) ∧
    (0 : Int) ∈ fallbackStoredTimes sweeps ∧
    (∀ t ∈ fallbackStoredTimes sweeps, 0 ≤ t) ∧
    (∀ s ∈ sweeps, sweepFallbackTimes s = (List.range s.nrays).map fun i : Nat =>
      ratTrunc ((s.startEpoch : Rat) +
        (if s.nrays = 1 then 0
         else ((s.endEpoch - s.startEpoch : Int) : Rat) * (i : Rat) /
           ((s.nrays : Rat) - 1)))) := by
  have hne2 : fallbackTimeData sweeps ≠ [] := by
    match sweeps, hne with
    | s :: rest, _ =>
      have hlen : 0 < (fallbackTimeData (s :: rest)).length := by
        rw [fallbackTimeData, List.flatMap_cons, List.length_append,
          sweepFallbackTimes_length]
        have := hpos s (List.mem_cons_self s rest)
        omega
      exact List.ne_nil_of_length_pos hlen
  obtain ⟨m, hm⟩ : ∃ m : Int, (fallbackTimeData sweeps).minimum = (m : WithTop Int) := by
    cases h : (fallbackTimeData sweeps).minimum with
    | top => exact absurd h (List.minimum_ne_top_of_ne_nil hne2)
    | coe m => exact ⟨m, rfl⟩
  obtain ⟨hmem, hle⟩ := List.minimum_eq_coe_iff.mp hm
  have hep : fallbackEpoch sweeps = m := by rw [fallbackEpoch, hm]; rfl
  refine ⟨hep ▸ hmem, ?_, rfl, ?_, ?_, ?_⟩
  · intro t ht; rw [hep]; exact hle t ht
  · exact List.mem_map.mpr ⟨m, hmem, by rw [hep, sub_self]⟩
  · intro t ht
    obtain ⟨x, hx, rfl⟩ := List.mem_map.mp ht
    rw [hep, sub_nonneg]
    exact hle x hx
  · intro s _
    simp only [sweepFallbackTimes, linspace0, List.map_map]
    rfl

/-- Witness for C1 amended: a single sweep, start epoch 0, end epoch 10, 5
rays. -/
theorem fallback_time_reconstruction_witness :
    (([⟨0, 10, 5⟩] : List SweepTimeMeta) ≠ [] ∧
      ∀ s ∈ ([⟨0, 10, 5⟩] : List SweepTimeMeta), 0 < s.nrays) ∧
    (fallbackEpoch [⟨0, 10, 5⟩] ∈ fallbackTimeData [⟨0, 10, 5⟩] ∧
    (∀ t ∈ fallbackTimeData [⟨0, 10, 5⟩], fallbackEpoch [⟨0, 10, 5⟩] ≤ t) ∧
    fallbackStoredTimes [⟨0, 10, 5⟩] =
      (fallbackTimeData [⟨0, 10, 5⟩]).map
        (fun t => t - fallbackEpoch [⟨0, 10, 5⟩]) ∧
    (0 : Int) ∈ fallbackStoredTimes [⟨0, 10, 5⟩] ∧
    (∀ t ∈ fallbackStoredTimes [⟨0, 10, 5⟩], 0 ≤ t) ∧
    (∀ s ∈ ([⟨0, 10, 5⟩] : List SweepTimeMeta),
      sweepFallbackTimes s = (List.range s.nrays).map fun i : Nat =>
        ratTrunc ((s.startEpoch : Rat) +
          (if s.nrays = 1 then 0
           else ((s.endEpoch - s.startEpoch : Int) : Rat) * (i : Rat) /
             ((s.nrays : Rat) - 1))))) :=
  ⟨⟨by simp, by simp⟩,
    fallback_time_reconstruction [⟨0, 10, 5⟩] (by simp) (by simp)⟩

/-- Attributes of a field's `what` group used by `_get_odim_h5_sweep_data`
(odim_h5.py lines 287-309); every attribute is optional in the file. -/
structure FieldWhat where
  nodata : Option Rat
  undetect : Option Rat
  gain : Option Rat
  offset : Option Rat
deriving DecidableEq

/-- Embedding of odim_h5.py lines 294-298: mask raw entries equal to the nodata
sentinel when the attribute is declared; a masked entry is `none`. -/
def maskNodata (w : FieldWhat) (raw : Rat) : Option Rat :=
  match w.nodata with
  | some nd => if raw = nd then none else some raw
  | none => some raw

/-- Embedding of odim_h5.py lines 299-301: additionally mask entries equal to
the undetect sentinel when declared; already-masked entries stay masked. -/
def maskUndetect (w : FieldWhat) (x : Option Rat) : Option Rat :=
  match w.undetect, x with
  | some ud, some v => if v = ud then none else some v
  | _, x => x

/-- Embedding of odim_h5.py lines 303-309: gain and offset default to 1 and 0
when absent, and the affine transform `data * gain + offset` is applied;
masked entries stay masked. -/
def applyGainOffset (w : FieldWhat) (x : Option Rat) : Option Rat :=
  x.map fun v => v * w.gain.getD 1 + w.offset.getD 0

/-- Full decode of one raw sample by `_get_odim_h5_sweep_data`. -/
def decodeSample (w : FieldWhat) (raw : Rat) : Option Rat :=
  applyGainOffset w (maskUndetect w (maskNodata w raw))

/-- Decode of a sweep's 2-d raw sample array, entry by entry. -/
def decodeSweepData (w : FieldWhat) (raw : List (List Rat)) :
    List (List (Option Rat)) :=
  raw.map (List.map (decodeSample w))

/-- C5: decoding a field masks entries equal to the nodata sentinel (whatever
the gain and offset are), then additionally entries equal to the undetect
sentinel, then applies value = raw*gain + offset; absent sentinel attributes
mean no masking and absent gain/offset default to 1 and 0; the decode is a
pure function, so decoding the same source twice is bitwise-identical. -/
theorem field_decoding (w : FieldWhat) (raw : Rat) :
    (∀ nd, w.nodata = some nd → raw = nd → decodeSample w raw = none) ∧
    (∀ ud, w.undetect = some ud → raw = ud → decodeSample w raw = none) ∧
    ((∀ nd, w.nodata = some nd → raw ≠ nd) →
      (∀ ud, w.undetect = some ud → raw ≠ ud) →
      decodeSample w raw = some (raw * w.gain.getD 1 + w.offset.getD 0)) ∧
    (w.nodata = none → w.undetect = none →
      decodeSample w raw = some (raw * w.gain.getD 1 + w.offset.getD 0)) ∧
    (∀ rawArr : List (List Rat),
      decodeSweepData w rawArr = decodeSweepData w rawArr) := by
  refine ⟨?_, ?_, ?_, ?_, fun rawArr => rfl⟩
  · intro nd hnd hraw
    simp [decodeSample, maskNodata, hnd, hraw, maskUndetect, applyGainOffset]
  · intro ud hud hraw
    subst hraw
    cases hnd : w.nodata with
    | none =>
      simp [decodeSample, maskNodata, hnd, maskUndetect, hud,
        applyGainOffset]
    | some nd =>
      by_cases h : raw = nd
      · simp [decodeSample, maskNodata, hnd, h, maskUndetect, hud,
          applyGainOffset]
      · simp [decodeSample, maskNodata, hnd, h, maskUndetect, hud,
          applyGainOffset]
  · intro h1 h2
    cases hnd : w.nodata with
    | none =>
      cases hud : w.undetect with
      | none =>
        simp [decodeSample, maskNodata, hnd, maskUndetect, hud,
          applyGainOffset]
      | some ud =>
        have := h2 ud hud
        simp [decodeSample, maskNodata, hnd, maskUndetect, hud, this,
          applyGainOffset]
    | some nd =>
      have hne := h1 nd hnd
      cases hud : w.undetect with
      | none =>
        simp [decodeSample, maskNodata, hnd, hne, maskUndetect, hud,
          applyGainOffset]
      | some ud =>
        have hne2 := h2 ud hud
        simp [decodeSample, maskNodata, hnd, hne, maskUndetect, hud, hne2,
          applyGainOffset]
  · intro hnd hud
    simp [decodeSample, maskNodata, hnd, maskUndetect, hud, applyGainOffset]

/-- Witness for C5: with nodata=255, undetect=0, gain=2, offset=3, the raw
sample 255 decodes to masked despite the nontrivial gain/offset, and the raw
sample 7 decodes to 7*2 + 3. -/
theorem field_decoding_witness :
    decodeSample ⟨some 255, some 0, some 2, some 3⟩ 255 = none ∧
    decodeSample ⟨some 255, some 0, some 2, some 3⟩ 7 =
      some (7 * (2 : Rat) + 3) :=
  ⟨(field_decoding ⟨some 255, some 0, some 2, some 3⟩ 255).1 255 rfl rfl,
    (field_decoding ⟨some 255, some 0, some 2, some 3⟩ 7).2.2.1
      (fun nd hnd => by injection hnd with h2; subst h2; decide)
      (fun ud hud => by injection hud with h2; subst h2; decide)⟩

/-- Embedding of odim_h5.py lines 180-193, the range block of `read_odim_h5`:
with the per-sweep `rstart` (km) and `rscale` (m) attribute lists and
dataset1's `nbins`, the code raises ValueError when any sweep's value differs
from the first sweep's (`any(rstart != rstart[0])`), and otherwise builds
`np.arange(nbins)*rscale[0] + rstart[0]*1000`.  An `.error` result models the
raised exception, which aborts `read_odim_h5` before any Radar object is
assembled, so no partial model escapes. -/
def readRange (rstart rscale : List Rat) (nbins : Nat) :
    Except String (List Rat) :=
  if rstart.any (fun x => x != rstart.headI) then
    .error "range start changes between sweeps"
  else if rscale.any (fun x => x != rscale.headI) then
    .error "range scale changes between sweeps"
  else
    .ok ((List.range nbins).map fun i : Nat =>
      (i : Rat) * rscale.headI + rstart.headI * 1000)

theorem any_bne_headI_iff (xs : List Rat) :
    xs.any (fun x => x != xs.headI) = true ↔ ∃ a ∈ xs, ∃ b ∈ xs, a ≠ b := by
  rw [List.any_eq_true]
  constructor
  · rintro ⟨x, hx, hne⟩
    rw [bne_iff_ne] at hne
    cases xs with
    | nil => cases hx
    | cons y ys =>
      exact ⟨x, hx, y, List.mem_cons_self y ys, hne⟩
  · rintro ⟨a, ha, b, hb, hab⟩
    by_cases hA : a = xs.headI
    · refine ⟨b, hb, ?_⟩
      rw [bne_iff_ne]
      rw [hA] at hab
      exact fun h => hab h.symm
    · exact ⟨a, ha, by rw [bne_iff_ne]; exact hA⟩

/-- C6: if the range start or the gate spacing differs between any two sweeps,
the decoder raises (ValueError, the spec's InconsistentGeometry) and yields no
model; if both are identical across all sweeps, no such error is raised and
the range array is produced. -/
theorem range_geometry_check (rstart rscale : List Rat) (nbins : Nat)
    (hn1 : rstart ≠ []) (hn2 : rscale ≠ []) :
    (((∃ a ∈ rstart, ∃ b ∈ rstart, a ≠ b) ∨ (∃ a ∈ rscale, ∃ b ∈ rscale, a ≠ b)) ↔
      ∃ e, readRange rstart rscale nbins = .error e) ∧
    ((∀ a ∈ rstart, ∀ b ∈ rstart, a = b) → (∀ a ∈ rscale, ∀ b ∈ rscale, a = b) →
      readRange rstart rscale nbins =
        .ok ((List.range nbins).map fun i : Nat =>
          (i : Rat) * rscale.headI + rstart.headI * 1000)) := by
  constructor
  · constructor
    · intro h
      rw [readRange]
      rcases h with h | h
      · rw [if_pos ((any_bne_headI_iff rstart).mpr h)]
        exact ⟨_, rfl⟩
      · by_cases h1 : rstart.any (fun x => x != rstart.headI) = true
        · rw [if_pos h1]; exact ⟨_, rfl⟩
        · rw [if_neg (by simp [h1]), if_pos ((any_bne_headI_iff rscale).mpr h)]
          exact ⟨_, rfl⟩
    · rintro ⟨e, he⟩
      rw [readRange] at he
      by_cases h1 : rstart.any (fun x => x != rstart.headI) = true
      · exact Or.inl ((any_bne_headI_iff rstart).mp h1)
      · rw [if_neg (by simp [h1])] at he
        by_cases h2 : rscale.any (fun x => x != rscale.headI) = true
        · exact Or.inr ((any_bne_headI_iff rscale).mp h2)
        · rw [if_neg (by simp [h2])] at he
          cases he
  · intro h1 h2
    rw [readRange, if_neg, if_neg]
    · intro hc
      obtain ⟨a, ha, b, hb, hab⟩ := (any_bne_headI_iff rscale).mp hc
      exact hab (h2 a ha b hb)
    · intro hc
      obtain ⟨a, ha, b, hb, hab⟩ := (any_bne_headI_iff rstart).mp hc
      exact hab (h1 a ha b hb)

/-- Witness for C6: two sweeps with rstart 0 km and 0 km, rscale 250 m and
300 m (the spec's example) make the check report an error, via the left-to-
right direction of the equivalence. -/
theorem range_geometry_check_witness :
    (([0, 0] : List Rat) ≠ [] ∧ ([250, 300] : List Rat) ≠ []) ∧
    (∃ e, readRange [0, 0] [250, 300] 5 = .error e) :=
  ⟨⟨by simp, by simp⟩,
    ((range_geometry_check [0, 0] [250, 300] 5 (by simp) (by simp)).1).mp
      (Or.inr ⟨250, by simp, 300, by simp, by norm_num⟩)⟩

/-- Optional attributes of a dataset's `how` group that `read_odim_h5` probes
when choosing reconstruction strategies (odim_h5.py lines 171, 197, 220). -/
structure HowAttrs where
  elangles : Option (List Rat)
deriving DecidableEq

/-- One `datasetN` group as the elevation block sees it: the required
`where/nrays` and `where/elangle` attributes and the optional `how` group. -/
structure SweepGroup where
  nrays : Nat
  elangle : Rat
  how : Option HowAttrs
deriving DecidableEq

instance : Inhabited SweepGroup := ⟨⟨0, 0, none⟩⟩

/-- Embedding of odim_h5.py lines 130-134: `ds1_how` is the FIRST dataset's
`how` attribute set, mocked as an empty dictionary when the group is absent. -/
def ds1How (sweeps : List SweepGroup) : HowAttrs :=
  (sweeps.headI.how).getD ⟨none⟩

/-- Reading `hfile[d]['how'].attrs['elangles'][:]` for one sweep inside the
first elevation branch (odim_h5.py line 174): a missing `how` group or
`elangles` attribute raises KeyError; an array whose length does not match the
sweep's ray count fails the numpy slice assignment. -/
def sweepElangles (s : SweepGroup) : Except String (List Rat) :=
  match s.how with
  | none => .error "KeyError: how"
  | some h =>
    match h.elangles with
    | none => .error "KeyError: elangles"
    | some els =>
      if els.length = s.nrays then .ok els
      else .error "could not broadcast elangles into slice"

/-- Concatenation of the per-sweep `elangles` reads, in sweep order. -/
def collectElangles : List SweepGroup → Except String (List Rat)
  | [] => .ok []
  | s :: rest => do
    let e ← sweepElangles s
    let r ← collectElangles rest
    return e ++ r

/-- Embedding of odim_h5.py lines 169-177, the elevation block: the branch is
selected by testing `'elangles' in ds1_how` — the first dataset's metadata —
and the chosen branch is then applied to every sweep; the fallback is
`np.repeat(sweep_el, rays_per_sweep)`. -/
def decodeElevation (sweeps : List SweepGroup) : Except String (List Rat) :=
  match (ds1How sweeps).elangles with
  | some _ => collectElangles sweeps
  | none => .ok (sweeps.flatMap fun s => List.replicate s.nrays s.elangle)

/-- C3 counterexample: a two-sweep volume whose first sweep has no per-ray
elevation samples and whose second sweep declares elangles = [5].  The claim
says sweep 2 must use its own samples (giving ray elevations [1, 5]), but the
decoder selects the fallback for the whole volume from the first sweep's
metadata and broadcasts the fixed angles, giving [1, 2]. -/
theorem strategy_not_per_sweep_counterexample :
    decodeElevation [⟨1, 1, none⟩, ⟨1, 2, some ⟨some [5]⟩⟩] =
      .ok [1, 2] ∧
    (([⟨1, 1, none⟩, ⟨1, 2, some ⟨some [5]⟩⟩] : List SweepGroup)[1]?).bind
      (fun s => s.how.bind HowAttrs.elangles) = some [5] ∧
    decodeElevation [⟨1, 1, none⟩, ⟨1, 2, some ⟨some [5]⟩⟩] ≠
      .ok [1, 5] := by
  refine ⟨rfl, rfl, ?_⟩
  intro h
  rw [show decodeElevation [⟨1, 1, none⟩, ⟨1, 2, some ⟨some [5]⟩⟩] =
    .ok [1, 2] from rfl] at h
  have h2 : ([1, 2] : List Rat) = [1, 5] := by
    injection h
  simp only [List.cons.injEq] at h2
  have : (2 : Rat) = 5 := h2.2.1
  norm_num at this

/-- C3 amended: the reconstruction strategy is selected once per volume from
the FIRST sweep's metadata availability and applied to every sweep (shown here
for the elevation array; the azimuth and time blocks test the same `ds1_how`
dictionary): when the first sweep lacks per-ray samples every sweep gets the
fixed-angle broadcast, even sweeps that do carry samples; when the first sweep
has samples, every sweep must supply correctly-sized samples, and a sweep
without them aborts the decode with a KeyError instead of falling back. -/
theorem strategy_selected_from_first_sweep (sweeps : List SweepGroup) :
    ((ds1How sweeps).elangles = none →
      decodeElevation sweeps =
        .ok (sweeps.flatMap fun s => List.replicate s.nrays s.elangle)) ∧
    (∀ e0, (ds1How sweeps).elangles = some e0 →
      ((∀ s ∈ sweeps, ∃ els, s.how.bind HowAttrs.elangles = some els ∧
          els.length = s.nrays) →
        decodeElevation sweeps =
          .ok (sweeps.flatMap fun s =>
            (s.how.bind HowAttrs.elangles).getD [])) ∧
      ((∃ s ∈ sweeps, s.how.bind HowAttrs.elangles = none) →
        ∃ e, decodeElevation sweeps = .error e)) := by
  constructor
  · intro h
    rw [decodeElevation, h]
  · intro e0 h
    have hcollect : ∀ gs : List SweepGroup,
        (∀ s ∈ gs, ∃ els, s.how.bind HowAttrs.elangles = some els ∧
          els.length = s.nrays) →
        collectElangles gs =
          .ok (gs.flatMap fun s => (s.how.bind HowAttrs.elangles).getD []) := by
      intro gs
      induction gs with
      | nil => intro _; rfl
      | cons s rest ih =>
        intro hall
        obtain ⟨els, hels, hlen⟩ := hall s (List.mem_cons_self s rest)
        have hrest := ih fun t ht => hall t (List.mem_cons_of_mem s ht)
        cases hhow : s.how with
        | none => rw [hhow] at hels; cases hels
        | some ha =>
          rw [hhow] at hels
          simp only [Option.some_bind] at hels
          have hok : sweepElangles s = .ok els := by
            simp [sweepElangles, hhow, hels, hlen]
          simp only [collectElangles, hok, hrest, List.flatMap_cons, hhow,
            Option.some_bind, hels, Option.getD_some]
          rfl
    have herr : ∀ gs : List SweepGroup,
        (∃ s ∈ gs, s.how.bind HowAttrs.elangles = none) →
        ∃ e, collectElangles gs = .error e := by
      intro gs
      induction gs with
      | nil => rintro ⟨s, hs, _⟩; cases hs
      | cons s rest ih =>
        rintro ⟨t, ht, hnone⟩
        rcases List.mem_cons.mp ht with rfl | ht2
        · cases hhow : t.how with
          | none => exact ⟨_, by rw [collectElangles, sweepElangles, hhow]; rfl⟩
          | some ha =>
            rw [hhow] at hnone
            simp only [Option.some_bind] at hnone
            refine ⟨"KeyError: elangles", ?_⟩
            have hko : sweepElangles t = .error "KeyError: elangles" := by
              simp [sweepElangles, hhow, hnone]
            rw [collectElangles, hko]
            rfl
        · obtain ⟨e, he⟩ := ih ⟨t, ht2, hnone⟩
          cases hs : sweepElangles s with
          | error e2 => exact ⟨e2, by rw [collectElangles, hs]; rfl⟩
          | ok v => exact ⟨e, by rw [collectElangles, hs, he]; rfl⟩
    exact ⟨fun hall => by rw [decodeElevation, h]; exact hcollect sweeps hall,
      fun hex => by rw [decodeElevation, h]; exact herr sweeps hex⟩

/-- Witness for C3 amended, at a two-sweep volume whose first sweep lacks the
samples: the fallback broadcast is used for both sweeps. -/
theorem strategy_selected_from_first_sweep_witness :
    (ds1How [⟨2, 3, none⟩, ⟨1, 4, some ⟨some [9]⟩⟩]).elangles = none ∧
    decodeElevation [⟨2, 3, none⟩, ⟨1, 4, some ⟨some [9]⟩⟩] =
      .ok (([⟨2, 3, none⟩, ⟨1, 4, some ⟨some [9]⟩⟩] : List SweepGroup).flatMap
        fun s => List.replicate s.nrays s.elangle) :=
  ⟨rfl, (strategy_selected_from_first_sweep
    [⟨2, 3, none⟩, ⟨1, 4, some ⟨some [9]⟩⟩]).1 rfl⟩

/-- Embedding of odim_h5.py lines 203-205, the per-ray circular mean of start
and stop azimuth angles:
`np.angle((np.exp(1j*np.deg2rad(startaz)) + np.exp(1j*np.deg2rad(stopaz)))/2., deg=True)`,
with float arithmetic idealized over the reals. -/
noncomputable def circularMeanDeg (startaz stopaz : Real) : Real :=
  ((Complex.exp (Complex.I * Complex.ofReal (startaz * Real.pi / 180)) +
    Complex.exp (Complex.I * Complex.ofReal (stopaz * Real.pi / 180))) /
      2).arg * 180 / Real.pi

/-- Embedding of odim_h5.py lines 210-215, the fallback azimuth branch:
`np.fmod(start_az + np.arange(nrays), 360.)` with the integer a1gate index. -/
def fallbackAzimuth (a1gate i : Nat) : Nat := (a1gate + i) % 360

theorem exp_I_ofReal (x : Real) :
    Complex.exp (Complex.I * Complex.ofReal x) =
      Complex.ofReal (Real.cos x) + Complex.ofReal (Real.sin x) * Complex.I := by
  rw [mul_comm, Complex.exp_mul_I, ← Complex.ofReal_cos, ← Complex.ofReal_sin]

/-- C2 counterexample: a ray whose start and stop azimuth samples are both
270 degrees gets the circular-mean azimuth -90 degrees (np.angle returns
values in (-180, 180]), which does not lie in [0, 360). -/
theorem azimuth_range_counterexample :
    circularMeanDeg 270 270 = -90 ∧
    (-90 : Real) ∉ Set.Ico (0 : Real) 360 := by
  constructor
  · rw [circularMeanDeg]
    have h32 : (270 : Real) * Real.pi / 180 = Real.pi + Real.pi / 2 := by
      ring
    rw [h32]
    have hcos : Real.cos (Real.pi + Real.pi / 2) = 0 := by
      simp [Real.cos_add]
    have hsin : Real.sin (Real.pi + Real.pi / 2) = -1 := by
      simp [Real.sin_add]
    have hexp : Complex.exp (Complex.I *
        Complex.ofReal (Real.pi + Real.pi / 2)) = -Complex.I := by
      rw [exp_I_ofReal, hcos, hsin]
      simp
    rw [hexp]
    have hmean : (-Complex.I + -Complex.I) / 2 = -Complex.I := by ring
    rw [hmean, Complex.arg_neg_I]
    field_simp
    ring
  · intro hmem
    have := hmem.1
    norm_num at this

/-- C2 amended: every circular-mean azimuth lies in (-180, 180] — the range
of np.angle(..., deg=True) — rather than in [0, 360); the circular mean of
start=359 and stop=1 degrees is 0 degrees (not 180); and the fallback
uniform-spacing branch produces azimuths in [0, 360). -/
theorem azimuth_reconstruction (a b : Real) (g i : Nat) :
    circularMeanDeg a b ∈ Set.Ioc (-180 : Real) 180 ∧
    circularMeanDeg 359 1 = 0 ∧
    fallbackAzimuth g i < 360 := by
  refine ⟨?_, ?_, Nat.mod_lt _ (by omega)⟩
  · rw [Set.mem_Ioc, circularMeanDeg]
    set t : Real := ((Complex.exp (Complex.I *
        Complex.ofReal (a * Real.pi / 180)) +
      Complex.exp (Complex.I * Complex.ofReal (b * Real.pi / 180))) / 2).arg
      with ht
    have h1 : -Real.pi < t := Complex.neg_pi_lt_arg _
    have h2 : t ≤ Real.pi := Complex.arg_le_pi _
    have hpi := Real.pi_pos
    constructor
    · rw [mul_div_assoc, neg_lt, ← neg_mul]
      have hh : (180 : Real) / Real.pi * Real.pi = 180 := by
        field_simp
      calc -t * (180 / Real.pi) < Real.pi * (180 / Real.pi) := by
            apply mul_lt_mul_of_pos_right
            · linarith
            · positivity
        _ = 180 := by field_simp
    · rw [mul_div_assoc]
      calc t * (180 / Real.pi) ≤ Real.pi * (180 / Real.pi) := by
            apply mul_le_mul_of_nonneg_right h2
            positivity
        _ = 180 := by field_simp
  · rw [circularMeanDeg]
    have h359 : (359 : Real) * Real.pi / 180 = 2 * Real.pi - Real.pi / 180 := by
      ring
    have h1 : (1 : Real) * Real.pi / 180 = Real.pi / 180 := by ring
    rw [h359, h1, exp_I_ofReal, exp_I_ofReal, Real.cos_two_pi_sub,
      Real.sin_two_pi_sub]
    have hsum : (Complex.ofReal (Real.cos (Real.pi / 180)) +
        Complex.ofReal (-Real.sin (Real.pi / 180)) * Complex.I +
        (Complex.ofReal (Real.cos (Real.pi / 180)) +
          Complex.ofReal (Real.sin (Real.pi / 180)) * Complex.I)) / 2 =
        Complex.ofReal (Real.cos (Real.pi / 180)) := by
      push_cast
      ring
    rw [hsum]
    have hcosnn : 0 ≤ Real.cos (Real.pi / 180) := by
      have hpi := Real.pi_pos
      refine le_of_lt (Real.cos_pos_of_mem_Ioo ⟨?_, ?_⟩)
      · linarith
      · linarith
    rw [Complex.arg_ofReal_of_nonneg hcosnn, zero_mul, zero_div]

end OdimH5

namespace WriteUF

/-- One item of a `struct.pack` format string as used by write_uf.py: a
big-endian 16-bit signed integer (format 'h') or a fixed-width byte string
(format 'Ns', null-padded and truncated).  Strings are modelled as ASCII byte
lists, as a Python 2 `str` is a byte string. -/
inductive PackItem where
  | i16 (z : Int)
  | str (width : Nat) (bytes : List Nat)
deriving DecidableEq

/-- Big-endian two's-complement bytes of a 16-bit integer. -/
def beI16 (z : Int) : List Nat :=
  [(z % 65536).toNat / 256, (z % 65536).toNat % 256]

/-- Fixed-width 'Ns' string packing: truncate to the width and null-pad. -/
def strBytes (w : Nat) (s : List Nat) : List Nat :=
  s.take w ++ List.replicate (w - s.length) 0

def itemBytes : PackItem → List Nat
  | .i16 z => beI16 z
  | .str w s => strBytes w s

def itemSize : PackItem → Nat
  | .i16 _ => 2
  | .str w _ => w

/-- Range check struct.pack performs for format 'h'. -/
def itemOk : PackItem → Bool
  | .i16 z => -32768 ≤ z && z ≤ 32767
  | .str _ _ => true

/-- Embedding of one `struct.pack(format, *values)` call: raises struct.error
(and writes nothing) when any integer value is out of range for its format,
otherwise emits the concatenated bytes. -/
def packItems (items : List PackItem) : Except String (List Nat) :=
  if items.all itemOk then .ok (items.flatMap itemBytes)
  else .error "struct.error: short format requires -32768 <= number <= 32767"

/-- Big-endian bytes of an unsigned 32-bit integer (format 'I'). -/
def u32Bytes (z : Int) : List Nat :=
  [z.toNat / 16777216 % 256, z.toNat / 65536 % 256, z.toNat / 256 % 256,
    z.toNat % 256]

/-- struct.pack of a single format 'I' value. -/
def packU32 (z : Int) : Except String (List Nat) :=
  if 0 ≤ z && z < 4294967296 then .ok (u32Bytes z)
  else .error "struct.error: argument out of range for format I"

/-- One entry of `radar.fields`: its dict key (byte string) and its 2-d
sample array in `[ray][gate]` layout (the masked array's raw `.data`,
quantized to integers as format 'h' demands). -/
structure UFField where
  name : List Nat
  data : List (List Int)
deriving DecidableEq

/-- The slice of a pyart Radar object that write_uf.py reads: ray, sweep,
gate counts, `sweep_end_ray_index['data']`, the fields mapping in its stable
iteration order, `metadata['instrument_name']`, and
`range['meters_between_gates']` (an integral number of meters; write_uf packs
it with format 'h'). -/
structure UFRadar where
  ngates : Nat
  nrays : Nat
  nsweeps : Nat
  sweepEndRayIndex : List Int
  fields : List UFField
  instrumentName : List Nat
  metersBetweenGates : Int
deriving DecidableEq

def numFields (r : UFRadar) : Nat := r.fields.length

/-- Embedding of `_get_ray_size` (write_uf.py lines 212-222):
`record_size = 52 + (27 + radar.ngates)*len(radar.fields.keys())`,
a count of 16-bit words. -/
def rayWordSize (r : UFRadar) : Int :=
  52 + (27 + (r.ngates : Int)) * (numFields r : Int)

/-- Embedding of write_uf.py line 83: `RayNumber = ray_num + 1`. -/
def rayNumber (ray : Nat) : Int := (ray : Int) + 1

/-- Embedding of write_uf.py lines 85-86:
`SweepNumber = 1 + radar.nsweeps - sum(radar.sweep_end_ray_index['data'] > ray_num)`. -/
def sweepNumber (r : UFRadar) (ray : Nat) : Int :=
  1 + (r.nsweeps : Int) -
    ((r.sweepEndRayIndex.countP fun e => (ray : Int) < e : Nat) : Int)

/-- Embedding of `_write_mandatory_header` (write_uf.py lines 72-118): the
values of UF_MANDATORY_HEADER2 in order.  Site location, timestamps and scan
angles are the hardcoded placeholders of the source; SiteName is
`_prep_string('UNSET', 8)` = the bytes of 'UNSET' followed by a newline and
two spaces. -/
def mandatoryItems (r : UFRadar) (ray : Nat) : List PackItem :=
  [ .str 2 [85, 70],
    .i16 (rayWordSize r),
    .i16 46,
    .i16 60,
    .i16 60,
    .i16 1,
    .i16 1,
    .i16 (rayNumber ray),
    .i16 1,
    .i16 (sweepNumber r ray),
    .str 8 (r.instrumentName.take 8),
    .str 8 [85, 78, 83, 69, 84, 10, 32, 32],
    .i16 25, .i16 25, .i16 59,
    .i16 25, .i16 25, .i16 25,
    .i16 25,
    .i16 25, .i16 8, .i16 15,
    .i16 21, .i16 35, .i16 45,
    .str 2 [85, 84],
    .i16 35, .i16 12,
    .i16 1, .i16 25, .i16 25,
    .i16 25, .i16 8, .i16 25,
    .str 8 [80, 89, 65, 82, 84, 32, 32, 32],
    .i16 25 ]

/-- Embedding of `_write_optional_header` (write_uf.py lines 183-197): all
values are hardcoded in the source. -/
def optionalItems : List PackItem :=
  [ .str 8 [80, 89, 65, 82, 84, 32, 32, 32],
    .i16 2, .i16 3, .i16 4, .i16 5, .i16 6,
    .str 8 [70, 73, 69, 76, 68, 84, 65, 80],
    .i16 7 ]

/-- Embedding of write_uf.py line 126: `fh_pos1 = 62 + 2*len(fields) + 1`. -/
def fhPos1 (r : UFRadar) : Int := 62 + 2 * (numFields r : Int) + 1

/-- Embedding of write_uf.py line 127: `fhk = 25 + radar.ngates`. -/
def fhk (r : UFRadar) : Int := 25 + (r.ngates : Int)

/-- The directory's byte-offset-to-field-header entries, `fh_pos1 + fhk*idx`
for each field index (write_uf.py line 142). -/
def directoryOffsets (r : UFRadar) : List Int :=
  (List.range (numFields r)).map fun idx : Nat => fhPos1 r + fhk r * (idx : Int)

/-- Embedding of `_write_data_header` (write_uf.py lines 121-142): the three
counts, then one `('>2sh', field[0:2], fh_pos1 + fhk*idx)` directory entry
per field in order. -/
def dataHeaderItems (r : UFRadar) : List PackItem :=
  [.i16 (numFields r : Int), .i16 1, .i16 (numFields r : Int)] ++
    ((r.fields.map UFField.name).zip (directoryOffsets r)).flatMap
      fun p => [.str 2 (p.1.take 2), .i16 p.2]

/-- Embedding of write_uf.py line 63, the DataPosition offset passed to
`_write_field_header` for every field:
`offset = 50 + 27*len(fields) + ngates*(len(fields)-1)`; it does not depend
on the field index. -/
def fieldDataPosition (r : UFRadar) : Int :=
  50 + 27 * (numFields r : Int) + (r.ngates : Int) * ((numFields r : Int) - 1)

/-- Embedding of `_write_field_header` (write_uf.py lines 145-175): the
uf_field_header2 values in order, followed by the extra
`struct.pack('>12s', 'NOTSETYET!!')` write. -/
def fieldHeaderItems (r : UFRadar) (offset : Int) : List PackItem :=
  [ .i16 offset,
    .i16 1,
    .i16 0, .i16 0,
    .i16 r.metersBetweenGates,
    .i16 (r.ngates : Int),
    .i16 0,
    .i16 1, .i16 1,
    .i16 0, .i16 0, .i16 0, .i16 0,
    .str 2 [78, 67],
    .i16 0, .i16 0,
    .str 2 [85, 70],
    .i16 0, .i16 16,
    .str 12 [78, 79, 84, 83, 69, 84, 89, 69, 84, 33, 33] ]

/-- Embedding of `_write_data` (write_uf.py lines 178-181): pack the ray's
gate samples with format `'>' + str(ngates) + 'h'`; the format requires
exactly ngates integer arguments. -/
def writeData (r : UFRadar) (f : UFField) (ray : Nat) :
    Except String (List Nat) :=
  match f.data[ray]? with
  | none => .error "IndexError: ray index out of range"
  | some row =>
    if row.length = r.ngates then packItems (row.map PackItem.i16)
    else .error "struct.error: pack expected ngates items"

/-- Embedding of the per-ray body of `write_uf` (write_uf.py lines 45-68):
the leading 4-byte big-endian record_size word (`2*_get_ray_size`), the
mandatory header, the optional header, the data header with its directory,
then per field a field header (all with the same DataPosition) and the ray's
samples, then the trailing record_size word. -/
def writeRay (r : UFRadar) (ray : Nat) : Except String (List Nat) := do
  let frame ← packU32 (2 * rayWordSize r)
  let m ← packItems (mandatoryItems r ray)
  let o ← packItems optionalItems
  let dh ← packItems (dataHeaderItems r)
  let fieldsBytes ← r.fields.mapM fun f => do
    let fh ← packItems (fieldHeaderItems r (fieldDataPosition r))
    let d ← writeData r f ray
    return fh ++ d
  return frame ++ m ++ o ++ dh ++ fieldsBytes.flatten ++ frame

/-- Embedding of `write_uf` (write_uf.py lines 26-68): one record per ray,
rays in order, concatenated into the output file. -/
def writeUF (r : UFRadar) : Except String (List Nat) := do
  let rays ← (List.range r.nrays).mapM (writeRay r)
  return rays.flatten

theorem itemBytes_length (it : PackItem) : (itemBytes it).length = itemSize it := by
  cases it with
  | i16 z => rfl
  | str w s =>
    simp only [itemBytes, itemSize, strBytes, List.length_append,
      List.length_take, List.length_replicate]
    omega

theorem packItems_ok_length (items : List PackItem) (bs : List Nat)
    (h : packItems items = .ok bs) :
    bs.length = (items.map itemSize).sum := by
  rw [packItems] at h
  by_cases hall : items.all itemOk = true
  · rw [if_pos hall] at h
    cases h
    rw [List.length_flatMap]
    congr 1
    exact List.map_congr_left fun it _ => itemBytes_length it
  · rw [if_neg hall] at h
    cases h

theorem packItems_ok_all (items : List PackItem) (bs : List Nat)
    (h : packItems items = .ok bs) : items.all itemOk = true := by
  rw [packItems] at h
  by_cases hall : items.all itemOk = true
  · exact hall
  · rw [if_neg hall] at h; cases h

theorem packItems_of_all (items : List PackItem)
    (h : items.all itemOk = true) :
    packItems items = .ok (items.flatMap itemBytes) := by
  rw [packItems, if_pos h]

theorem u32Bytes_length (z : Int) : (u32Bytes z).length = 4 := rfl

theorem packU32_ok (z : Int) (y : List Nat) (h : packU32 z = .ok y) :
    y = u32Bytes z := by
  rw [packU32] at h
  by_cases hc : (0 ≤ z && z < 4294967296) = true
  · rw [if_pos hc] at h; cases h; rfl
  · rw [if_neg hc] at h; cases h

theorem mandatoryItems_size (r : UFRadar) (ray : Nat) :
    ((mandatoryItems r ray).map itemSize).sum = 90 := rfl

theorem optionalItems_size : (optionalItems.map itemSize).sum = 28 := rfl

theorem fieldHeaderItems_size (r : UFRadar) (offset : Int) :
    ((fieldHeaderItems r offset).map itemSize).sum = 50 := rfl

theorem directoryOffsets_length (r : UFRadar) :
    (directoryOffsets r).length = numFields r := by
  rw [directoryOffsets, List.length_map, List.length_range]

theorem dataHeaderItems_size (r : UFRadar) :
    ((dataHeaderItems r).map itemSize).sum = 6 + 4 * numFields r := by
  rw [dataHeaderItems, List.map_append, List.sum_append]
  have h1 : (([.i16 (numFields r : Int), .i16 1, .i16 (numFields r : Int)] :
      List PackItem).map itemSize).sum = 6 := rfl
  rw [h1]
  congr 1
  rw [List.map_flatMap]
  have h2 : ∀ p : List Nat × Int,
      (([PackItem.str 2 (p.1.take 2), PackItem.i16 p.2]).map itemSize) =
        [2, 2] := fun p => rfl
  simp only [h2]
  rw [List.flatMap_def, List.sum_flatten, List.map_map]
  have h3 : (List.sum ∘ fun _ : List Nat × Int => ([2, 2] : List Nat)) =
      fun _ : List Nat × Int => (4 : Nat) := rfl
  rw [h3]
  have h4 : ∀ (l : List (List Nat × Int)),
      (l.map fun _ => (4 : Nat)).sum = 4 * l.length := by
    intro l
    induction l with
    | nil => rfl
    | cons x t ih => simp [ih, Nat.mul_succ]; omega
  rw [h4, List.length_zip, List.length_map, directoryOffsets_length]
  have h5 : min r.fields.length (numFields r) = numFields r := by
    rw [numFields]; omega
  rw [h5]

theorem writeData_ok_length (r : UFRadar) (f : UFField) (ray : Nat)
    (y : List Nat) (h : writeData r f ray = .ok y) :
    y.length = 2 * r.ngates := by
  rw [writeData] at h
  split at h
  · cases h
  · rename_i row hrow
    split at h
    · rename_i hlen
      have hl := packItems_ok_length _ _ h
      rw [hl, List.map_map]
      have h2 : (row.map (itemSize ∘ PackItem.i16)) =
          row.map fun _ => (2 : Nat) := rfl
      rw [h2]
      have h3 : ∀ (l : List Int), (l.map fun _ => (2 : Nat)).sum = 2 * l.length := by
        intro l
        induction l with
        | nil => rfl
        | cons x t ih => simp [ih, Nat.mul_succ]; omega
      rw [h3, hlen]
    · cases h

theorem mapM_ok_elem {α β : Type} (f : α → Except String β) (l : List α)
    (ys : List β) (h : l.mapM f = .ok ys) : ∀ x ∈ l, ∃ y, f x = .ok y := by
  induction l generalizing ys with
  | nil => intro x hx; cases hx
  | cons a t ih =>
    rw [List.mapM_cons] at h
    cases ha : f a with
    | error e => rw [ha] at h; cases h
    | ok b =>
      rw [ha] at h
      cases ht : t.mapM f with
      | error e => rw [ht] at h; cases h
      | ok bsr =>
        intro x hx
        rcases List.mem_cons.mp hx with rfl | hx2
        · exact ⟨b, ha⟩
        · exact ih bsr ht x hx2

theorem mapM_ok_of_forall {α β : Type} (f : α → Except String β) (l : List α)
    (h : ∀ x ∈ l, ∃ y, f x = .ok y) : ∃ ys, l.mapM f = .ok ys := by
  induction l with
  | nil => exact ⟨[], rfl⟩
  | cons a t ih =>
    obtain ⟨b, hb⟩ := h a (List.mem_cons_self a t)
    obtain ⟨ys, hys⟩ := ih fun x hx => h x (List.mem_cons_of_mem a hx)
    refine ⟨b :: ys, ?_⟩
    rw [List.mapM_cons, hb, hys]
    rfl

theorem mapM_ok_flatten_length {α : Type} (f : α → Except String (List Nat))
    (l : List α) (ys : List (List Nat)) (c : Nat) (h : l.mapM f = .ok ys)
    (hc : ∀ x ∈ l, ∀ y, f x = .ok y → y.length = c) :
    ys.length = l.length ∧ ys.flatten.length = l.length * c := by
  induction l generalizing ys with
  | nil =>
    rw [show ([] : List α).mapM f = Except.ok ([] : List (List Nat)) from rfl] at h
    cases h
    exact ⟨rfl, by simp⟩
  | cons a t ih =>
    rw [List.mapM_cons] at h
    cases ha : f a with
    | error e => rw [ha] at h; cases h
    | ok b =>
      rw [ha] at h
      cases ht : t.mapM f with
      | error e => rw [ht] at h; cases h
      | ok bsr =>
        rw [ht] at h
        cases h
        obtain ⟨ihl, ihf⟩ := ih bsr ht fun x hx y hy =>
          hc x (List.mem_cons_of_mem a hx) y hy
        constructor
        · simp [ihl]
        · rw [List.flatten_cons, List.length_append, ihf,
            hc a (List.mem_cons_self a t) b ha, List.length_cons]
          ring

theorem writeRay_ok_parts (r : UFRadar) (ray : Nat) (bs : List Nat)
    (h : writeRay r ray = .ok bs) :
    ∃ m o dh fb,
      packItems (mandatoryItems r ray) = .ok m ∧
      packItems optionalItems = .ok o ∧
      packItems (dataHeaderItems r) = .ok dh ∧
      (r.fields.mapM fun f => do
          let fh ← packItems (fieldHeaderItems r (fieldDataPosition r))
          let d ← writeData r f ray
          return fh ++ d) = .ok fb ∧
      bs = u32Bytes (2 * rayWordSize r) ++ m ++ o ++ dh ++ fb.flatten ++
        u32Bytes (2 * rayWordSize r) := by
  rw [writeRay] at h
  cases hfr : packU32 (2 * rayWordSize r) with
  | error e => rw [hfr] at h; cases h
  | ok frame =>
    rw [hfr] at h
    cases hm : packItems (mandatoryItems r ray) with
    | error e => rw [hm] at h; cases h
    | ok m =>
      rw [hm] at h
      cases ho : packItems optionalItems with
      | error e => rw [ho] at h; cases h
      | ok o =>
        rw [ho] at h
        cases hdh : packItems (dataHeaderItems r) with
        | error e => rw [hdh] at h; cases h
        | ok dh =>
          rw [hdh] at h
          cases hfb : (r.fields.mapM fun f => do
              let fh ← packItems (fieldHeaderItems r (fieldDataPosition r))
              let d ← writeData r f ray
              return fh ++ d) with
          | error e => rw [hfb] at h; cases h
          | ok fb =>
            rw [hfb] at h
            cases h
            have hfr2 := packU32_ok _ _ hfr
            subst hfr2
            exact ⟨m, o, dh, fb, rfl, rfl, rfl, rfl, rfl⟩

theorem fieldBlock_ok_length (r : UFRadar) (f : UFField) (ray : Nat)
    (y : List Nat)
    (h : (do
        let fh ← packItems (fieldHeaderItems r (fieldDataPosition r))
        let d ← writeData r f ray
        return fh ++ d) = .ok y) :
    y.length = 50 + 2 * r.ngates := by
  cases hfh : packItems (fieldHeaderItems r (fieldDataPosition r)) with
  | error e => rw [hfh] at h; cases h
  | ok fh =>
    rw [hfh] at h
    cases hd : writeData r f ray with
    | error e => rw [hd] at h; cases h
    | ok d =>
      rw [hd] at h
      cases h
      rw [List.length_append, packItems_ok_length _ _ hfh,
        fieldHeaderItems_size, writeData_ok_length r f ray d hd]

theorem writeRay_ok_length (r : UFRadar) (ray : Nat) (bs : List Nat)
    (h : writeRay r ray = .ok bs) :
    bs.length = 132 + (54 + 2 * r.ngates) * numFields r := by
  obtain ⟨m, o, dh, fb, hm, ho, hdh, hfb, hbs⟩ := writeRay_ok_parts r ray bs h
  have hflen : fb.flatten.length = r.fields.length * (50 + 2 * r.ngates) :=
    (mapM_ok_flatten_length _ _ _ _ hfb fun x _ y hy =>
      fieldBlock_ok_length r x ray y hy).2
  rw [hbs]
  simp only [List.length_append, u32Bytes_length,
    packItems_ok_length _ _ hm, packItems_ok_length _ _ ho,
    packItems_ok_length _ _ hdh, mandatoryItems_size, optionalItems_size,
    dataHeaderItems_size, hflen]
  rw [numFields]
  ring

theorem writeRay_frames (r : UFRadar) (ray : Nat) (bs : List Nat)
    (h : writeRay r ray = .ok bs) :
    bs.take 4 = u32Bytes (2 * rayWordSize r) ∧
    bs.drop (bs.length - 4) = u32Bytes (2 * rayWordSize r) := by
  obtain ⟨m, o, dh, fb, _, _, _, _, hbs⟩ := writeRay_ok_parts r ray bs h
  subst hbs
  constructor
  · simp only [List.append_assoc]
    have h4 : (u32Bytes (2 * rayWordSize r)).length = 4 := u32Bytes_length _
    rw [← h4, List.take_left]
  · have hlen : (u32Bytes (2 * rayWordSize r) ++ m ++ o ++ dh ++ fb.flatten ++
        u32Bytes (2 * rayWordSize r)).length - 4 =
        (u32Bytes (2 * rayWordSize r) ++ m ++ o ++ dh ++ fb.flatten).length := by
      simp only [List.length_append, u32Bytes_length]
      omega
    rw [hlen, List.drop_left]

set_option maxRecDepth 40000 in
/-- C7 counterexample: for a radar with one field and one gate the frame words
carry 160 = 2*(52 + 28*1), but the framed record content is 188 - 8 = 180
bytes, i.e. 90 16-bit words, so twice the record's actual word count is 180,
not the 160 the frame words carry. -/
theorem record_frame_counterexample :
    Except.map (fun bs => (bs.take 4, bs.drop (bs.length - 4), bs.length))
        (writeRay ⟨1, 1, 1, [0], [⟨[68, 90], [[7]]⟩], [88], 250⟩ 0) =
      .ok ([0, 0, 0, 160], [0, 0, 0, 160], 188) ∧
    (188 : Nat) - 4 - 4 = 2 * 90 ∧ (2 * 90 : Nat) ≠ 160 := by
  exact ⟨rfl, by decide, by decide⟩

/-- C7 amended: the encoder writes exactly one record per ray; each record is
framed by equal leading and trailing 4-byte big-endian words whose value,
2*(52 + (27 + ngates)*nfields), is determined only by the model's field and
gate counts and is the same for every ray; however the framed content is
124 + (54 + 2*ngates)*nfields bytes — 20 bytes (10 words) more than the frame
value — so the frame word is not twice the record's true 16-bit word count. -/
theorem record_framing (r : UFRadar) (ray : Nat) (bs : List Nat)
    (h : writeRay r ray = .ok bs) :
    bs.take 4 = u32Bytes (2 * rayWordSize r) ∧
    bs.drop (bs.length - 4) = u32Bytes (2 * rayWordSize r) ∧
    bs.length = 132 + (54 + 2 * r.ngates) * numFields r ∧
    ((bs.length : Int) - 8) = 2 * rayWordSize r + 20 ∧
    (∀ ray2 bs2, writeRay r ray2 = .ok bs2 →
      bs2.take 4 = bs.take 4 ∧ bs2.length = bs.length) ∧
    (∀ out, writeUF r = .ok out →
      out.length = r.nrays * (132 + (54 + 2 * r.ngates) * numFields r)) := by
  obtain ⟨ht, hd⟩ := writeRay_frames r ray bs h
  have hlen := writeRay_ok_length r ray bs h
  refine ⟨ht, hd, hlen, ?_, ?_, ?_⟩
  · rw [hlen, rayWordSize]
    push_cast
    ring
  · intro ray2 bs2 h2
    exact ⟨(writeRay_frames r ray2 bs2 h2).1.trans ht.symm,
      (writeRay_ok_length r ray2 bs2 h2).trans hlen.symm⟩
  · intro out hout
    rw [writeUF] at hout
    cases hrays : (List.range r.nrays).mapM (writeRay r) with
    | error e => rw [hrays] at hout; cases hout
    | ok rays =>
      rw [hrays] at hout
      cases hout
      have hfl := mapM_ok_flatten_length (writeRay r) (List.range r.nrays)
        rays (132 + (54 + 2 * r.ngates) * numFields r) hrays
        fun x _ y hy => writeRay_ok_length r x y hy
      rw [hfl.2, List.length_range]

/-- Witness for C7 amended at a concrete radar with no fields and one ray. -/
theorem record_framing_witness :
    (writeRay ⟨0, 1, 1, [0], [], [88], 250⟩ 0 =
      .ok ((writeRay ⟨0, 1, 1, [0], [], [88], 250⟩ 0).toOption.getD [])) ∧
    (((writeRay ⟨0, 1, 1, [0], [], [88], 250⟩ 0).toOption.getD []).take 4 =
      u32Bytes (2 * rayWordSize ⟨0, 1, 1, [0], [], [88], 250⟩) ∧
    ((writeRay ⟨0, 1, 1, [0], [], [88], 250⟩ 0).toOption.getD []).drop
        (((writeRay ⟨0, 1, 1, [0], [], [88], 250⟩ 0).toOption.getD []).length - 4) =
      u32Bytes (2 * rayWordSize ⟨0, 1, 1, [0], [], [88], 250⟩) ∧
    ((writeRay ⟨0, 1, 1, [0], [], [88], 250⟩ 0).toOption.getD []).length =
      132 + (54 + 2 * (⟨0, 1, 1, [0], [], [88], 250⟩ : UFRadar).ngates) *
        numFields ⟨0, 1, 1, [0], [], [88], 250⟩ ∧
    ((((writeRay ⟨0, 1, 1, [0], [], [88], 250⟩ 0).toOption.getD []).length : Int) - 8) =
      2 * rayWordSize ⟨0, 1, 1, [0], [], [88], 250⟩ + 20 ∧
    (∀ ray2 bs2, writeRay ⟨0, 1, 1, [0], [], [88], 250⟩ ray2 = .ok bs2 →
      bs2.take 4 = ((writeRay ⟨0, 1, 1, [0], [], [88], 250⟩ 0).toOption.getD []).take 4 ∧
      bs2.length = ((writeRay ⟨0, 1, 1, [0], [], [88], 250⟩ 0).toOption.getD []).length) ∧
    (∀ out, writeUF ⟨0, 1, 1, [0], [], [88], 250⟩ = .ok out →
      out.length = (⟨0, 1, 1, [0], [], [88], 250⟩ : UFRadar).nrays *
        (132 + (54 + 2 * (⟨0, 1, 1, [0], [], [88], 250⟩ : UFRadar).ngates) *
          numFields ⟨0, 1, 1, [0], [], [88], 250⟩))) :=
  ⟨rfl, record_framing ⟨0, 1, 1, [0], [], [88], 250⟩ 0 _ rfl⟩

/-- The 3-field, 100-gate model named by the spec's encoder offset check. -/
def exampleRadar3x100 : UFRadar :=
  ⟨100, 1, 1, [0],
    [⟨[68, 90], [List.replicate 100 0]⟩,
     ⟨[86, 69], [List.replicate 100 0]⟩,
     ⟨[90, 84], [List.replicate 100 0]⟩],
    [88], 250⟩

/-- C8 counterexample: for the 3-field, 100-gate model the directory's
byte-offset-to-field-header entries are [69, 194, 319] (strictly increasing),
but every field header's DataPosition offset is the same 331, so the
data-position offsets are not strictly increasing over the fields. -/
theorem field_offsets_counterexample :
    directoryOffsets exampleRadar3x100 = [69, 194, 319] ∧
    (exampleRadar3x100.fields.map fun _ => fieldDataPosition exampleRadar3x100) =
      [331, 331, 331] ∧
    ¬ List.Chain' (fun a b : Int => a < b)
      (exampleRadar3x100.fields.map fun _ =>
        fieldDataPosition exampleRadar3x100) := by
  refine ⟨rfl, rfl, ?_⟩
  intro h
  rw [show (exampleRadar3x100.fields.map fun _ =>
    fieldDataPosition exampleRadar3x100) = [331, 331, 331] from rfl] at h
  rcases h with _ | ⟨h1, _⟩
  exact absurd h1 (by decide)

theorem map_const_eq_replicate {α β : Type} (l : List α) (c : β) :
    (l.map fun _ => c) = List.replicate l.length c := by
  induction l with
  | nil => rfl
  | cons x t ih => simp [ih, List.replicate_succ]

/-- C8 amended: the directory's byte-offset-to-field-header entries equal
63 + 2*nfields + (25 + ngates)*idx and are strictly increasing over the
fields in their stable order; each field header's DataPosition offset equals
the constant 50 + 27*nfields + ngates*(nfields - 1), identical for every
field (the offset computed at write_uf.py line 63 does not depend on the
field index), so only the directory offsets are strictly increasing. -/
theorem field_offsets (r : UFRadar) :
    directoryOffsets r = (List.range (numFields r)).map
      (fun idx : Nat =>
        63 + 2 * (numFields r : Int) + (25 + (r.ngates : Int)) * idx) ∧
    List.Chain' (fun a b : Int => a < b) (directoryOffsets r) ∧
    (r.fields.map fun _ => fieldDataPosition r) =
      List.replicate (numFields r) (50 + 27 * (numFields r : Int) +
        (r.ngates : Int) * ((numFields r : Int) - 1)) := by
  have h1 : directoryOffsets r = (List.range (numFields r)).map
      (fun idx : Nat =>
        63 + 2 * (numFields r : Int) + (25 + (r.ngates : Int)) * idx) := by
    rw [directoryOffsets]
    exact List.map_congr_left fun idx _ => by rw [fhPos1, fhk]; ring
  refine ⟨h1, ?_, ?_⟩
  · rw [h1, List.chain'_map]
    cases hf : numFields r with
    | zero => exact List.chain'_nil
    | succ n =>
      rw [List.chain'_range_succ]
      intro m hm
      have hg : (0 : Int) < 25 + (r.ngates : Int) := by positivity
      have hexp : (25 + (r.ngates : Int)) * ((m : Int) + 1) =
          (25 + (r.ngates : Int)) * (m : Int) + (25 + (r.ngates : Int)) := by
        ring
      push_cast
      rw [hexp]
      linarith
  · rw [map_const_eq_replicate, fieldDataPosition, numFields]

theorem dataHeader_ok_directory (r : UFRadar) (dh : List Nat)
    (h : packItems (dataHeaderItems r) = .ok dh) :
    ∀ z ∈ directoryOffsets r, -32768 ≤ z ∧ z ≤ 32767 := by
  have hall := packItems_ok_all _ _ h
  intro z hz
  obtain ⟨i, hi, hzi⟩ := List.mem_iff_getElem.mp hz
  have hif : i < numFields r := by
    rw [directoryOffsets_length] at hi
    exact hi
  have hzip : i < ((r.fields.map UFField.name).zip (directoryOffsets r)).length := by
    rw [List.length_zip, List.length_map, directoryOffsets_length]
    rw [numFields] at hif ⊢
    omega
  have him : i < (r.fields.map UFField.name).length := by
    rw [List.length_map]
    rw [numFields] at hif
    exact hif
  have hpair : ((r.fields.map UFField.name)[i], (directoryOffsets r)[i]) ∈
      (r.fields.map UFField.name).zip (directoryOffsets r) := by
    refine List.mem_iff_getElem.mpr ⟨i, hzip, ?_⟩
    rw [List.getElem_zip]
  have hitem : PackItem.i16 z ∈ dataHeaderItems r := by
    rw [dataHeaderItems]
    refine List.mem_append_right _ ?_
    refine List.mem_flatMap.mpr ⟨_, hpair, ?_⟩
    rw [hzi]
    exact List.mem_cons_of_mem _ (List.mem_cons_self _ _)
  have hok := List.all_eq_true.mp hall _ hitem
  simp only [itemOk, Bool.and_eq_true, decide_eq_true_eq] at hok
  exact hok

/-- A one-field, one-gate, one-ray model whose single sample is 40000. -/
def exampleRadarBigSample : UFRadar :=
  ⟨1, 1, 1, [0], [⟨[68, 90], [[40000]]⟩], [88], 250⟩

set_option maxRecDepth 40000 in
/-- C9 counterexample: a shape-valid model (one field, one gate, one ray)
whose directory offsets ([65]) are all within the 16-bit addressable range,
yet encoding fails — the data sample 40000 overflows the 'h' pack — so
failures are not limited to the directory offset arithmetic. -/
theorem overflow_beyond_directory_counterexample :
    (exampleRadarBigSample.fields.all fun f =>
      f.data.length == exampleRadarBigSample.nrays &&
        f.data.all fun row => row.length == exampleRadarBigSample.ngates) =
      true ∧
    directoryOffsets exampleRadarBigSample = [65] ∧
    ((directoryOffsets exampleRadarBigSample).all fun z =>
      decide (-32768 ≤ z) && decide (z ≤ 32767)) = true ∧
    (writeUF exampleRadarBigSample).toOption = none := by
  exact ⟨by decide, rfl, by decide, by decide⟩

/-- C9 amended: encoding a shape-valid model fails whenever any 16-bit packed
quantity is out of the signed 16-bit range — in particular it does fail
whenever a directory offset exceeds the addressable range (the claim's
FieldCountOverflow) — but also when a non-directory quantity such as a data
sample overflows; when the record size, ray and sweep numbers, field count,
directory offsets, data position, bin spacing, gate count and every data
sample are within range, encoding completes without error. -/
theorem encode_overflow (r : UFRadar) :
    (0 < r.nrays → (∃ z ∈ directoryOffsets r, 32767 < z ∨ z < -32768) →
      (writeUF r).toOption = none) ∧
    ((-32768 ≤ rayWordSize r ∧ rayWordSize r ≤ 32767) →
     (∀ ray, ray < r.nrays →
       -32768 ≤ rayNumber ray ∧ rayNumber ray ≤ 32767) →
     (∀ ray, ray < r.nrays →
       -32768 ≤ sweepNumber r ray ∧ sweepNumber r ray ≤ 32767) →
     ((numFields r : Int) ≤ 32767) →
     (∀ z ∈ directoryOffsets r, -32768 ≤ z ∧ z ≤ 32767) →
     (-32768 ≤ fieldDataPosition r ∧ fieldDataPosition r ≤ 32767) →
     (-32768 ≤ r.metersBetweenGates ∧ r.metersBetweenGates ≤ 32767) →
     ((r.ngates : Int) ≤ 32767) →
     (∀ f ∈ r.fields, f.data.length = r.nrays ∧
       ∀ row ∈ f.data, row.length = r.ngates ∧
         ∀ z ∈ row, -32768 ≤ z ∧ z ≤ 32767) →
     ∃ out, writeUF r = .ok out) := by
  constructor
  · intro hn hex
    cases hw : writeUF r with
    | error e => rfl
    | ok out =>
      exfalso
      rw [writeUF] at hw
      cases hrays : (List.range r.nrays).mapM (writeRay r) with
      | error e => rw [hrays] at hw; cases hw
      | ok rays =>
        obtain ⟨bs0, hbs0⟩ := mapM_ok_elem (writeRay r) _ rays hrays 0
          (List.mem_range.mpr hn)
        obtain ⟨m, o, dh, fb, _, _, hdh, _, _⟩ :=
          writeRay_ok_parts r 0 bs0 hbs0
        obtain ⟨z, hzmem, hzbad⟩ := hex
        obtain ⟨hz1, hz2⟩ := dataHeader_ok_directory r dh hdh z hzmem
        omega
  · intro h1 h2 h3 h4 h5 h6 h7 h8 h9
    have hray : ∀ ray ∈ List.range r.nrays, ∃ bs, writeRay r ray = .ok bs := by
      intro ray hray0
      have hraylt := List.mem_range.mp hray0
      have hm : (mandatoryItems r ray).all itemOk = true := by
        obtain ⟨hrn1, hrn2⟩ := h2 ray hraylt
        obtain ⟨hsn1, hsn2⟩ := h3 ray hraylt
        simp only [mandatoryItems, List.all_cons, List.all_nil, itemOk,
          Bool.and_true, Bool.and_eq_true, decide_eq_true_eq, true_and,
          and_true]
        omega
      have hmok := packItems_of_all _ hm
      have hook := packItems_of_all optionalItems (by decide)
      have hdhall : (dataHeaderItems r).all itemOk = true := by
        rw [dataHeaderItems, List.all_append]
        have hfnn : (0 : Int) ≤ (numFields r : Int) := Int.natCast_nonneg _
        have hleft : (([.i16 (numFields r : Int), .i16 1,
            .i16 (numFields r : Int)] : List PackItem).all itemOk) = true := by
          simp only [List.all_cons, List.all_nil, itemOk, Bool.and_true,
            Bool.and_eq_true, decide_eq_true_eq, true_and, and_true]
          omega
        rw [hleft]
        rw [Bool.true_and]
        rw [List.all_eq_true]
        intro item hitem
        obtain ⟨p, hp, hpi⟩ := List.mem_flatMap.mp hitem
        have hp2 := (List.of_mem_zip hp).2
        obtain ⟨hz1, hz2⟩ := h5 p.2 hp2
        rcases List.mem_cons.mp hpi with rfl | hpi2
        · rfl
        · rcases List.mem_cons.mp hpi2 with rfl | hpi3
          · simp only [itemOk, Bool.and_eq_true, decide_eq_true_eq]
            exact ⟨hz1, hz2⟩
          · cases hpi3
      have hdhok := packItems_of_all _ hdhall
      have hfhall : (fieldHeaderItems r (fieldDataPosition r)).all itemOk = true := by
        have hgn : (0 : Int) ≤ (r.ngates : Int) := Int.natCast_nonneg _
        simp only [fieldHeaderItems, List.all_cons, List.all_nil, itemOk,
          Bool.and_true, Bool.and_eq_true, decide_eq_true_eq, true_and,
          and_true]
        omega
      have hfhok := packItems_of_all _ hfhall
      have hfields : ∀ f ∈ r.fields, ∃ y,
          (do
            let fh ← packItems (fieldHeaderItems r (fieldDataPosition r))
            let d ← writeData r f ray
            return fh ++ d) = .ok y := by
        intro f hf
        obtain ⟨hdl, hrows⟩ := h9 f hf
        have hray2 : ray < f.data.length := by
          rw [hdl]
          exact hraylt
        have hget : f.data[ray]? = some f.data[ray] :=
          List.getElem?_eq_getElem _
        have hrowmem : f.data[ray] ∈ f.data :=
          List.getElem_mem _
        obtain ⟨hrl, hrvals⟩ := hrows _ hrowmem
        have hdall : ((f.data[ray]).map
            PackItem.i16).all itemOk = true := by
          rw [List.all_eq_true]
          intro item hitem
          obtain ⟨z, hzmem, rfl⟩ := List.mem_map.mp hitem
          obtain ⟨ha, hb⟩ := hrvals z hzmem
          simp only [itemOk, Bool.and_eq_true, decide_eq_true_eq]
          exact ⟨ha, hb⟩
        have hwd : writeData r f ray =
            .ok (((f.data[ray]).map
              PackItem.i16).flatMap itemBytes) := by
          simp only [writeData, hget]
          rw [if_pos hrl]
          exact packItems_of_all _ hdall
        refine ⟨(fieldHeaderItems r (fieldDataPosition r)).flatMap itemBytes ++
          ((f.data[ray]).map PackItem.i16).flatMap
            itemBytes, ?_⟩
        rw [hfhok, hwd]
        rfl
      obtain ⟨fb, hfb⟩ := mapM_ok_of_forall _ _ hfields
      have hrws0 : (0 : Int) ≤ rayWordSize r := by
        rw [rayWordSize]
        positivity
      have hfr : packU32 (2 * rayWordSize r) = .ok (u32Bytes (2 * rayWordSize r)) := by
        rw [packU32, if_pos]
        rw [Bool.and_eq_true, decide_eq_true_eq, decide_eq_true_eq]
        omega
      refine ⟨u32Bytes (2 * rayWordSize r) ++
        (mandatoryItems r ray).flatMap itemBytes ++
        optionalItems.flatMap itemBytes ++
        (dataHeaderItems r).flatMap itemBytes ++ fb.flatten ++
        u32Bytes (2 * rayWordSize r), ?_⟩
      rw [writeRay, hfr, hmok, hook, hdhok, hfb]
      rfl
    obtain ⟨rays, hrays⟩ := mapM_ok_of_forall _ _ hray
    refine ⟨rays.flatten, ?_⟩
    rw [writeUF, hrays]
    rfl

/-- Witness for C9 amended: a one-field, one-gate, one-ray model with sample
7; all packed quantities are in range and encoding succeeds. -/
theorem encode_overflow_witness :
    ∃ out, writeUF ⟨1, 1, 1, [0], [⟨[68, 90], [[7]]⟩], [88], 250⟩ = .ok out :=
  (encode_overflow ⟨1, 1, 1, [0], [⟨[68, 90], [[7]]⟩], [88], 250⟩).2
    (by decide)
    (fun ray hlt => by
      have hz : ray = 0 := Nat.lt_one_iff.mp hlt
      subst hz; decide)
    (fun ray hlt => by
      have hz : ray = 0 := Nat.lt_one_iff.mp hlt
      subst hz; decide)
    (by decide)
    (by decide)
    (by decide)
    (by decide)
    (by decide)
    (by decide)

theorem sum_take_mono (l : List Nat) {m k : Nat} (h : m ≤ k) :
    (l.take m).sum ≤ (l.take k).sum := by
  have h1 : l.take m = (l.take k).take m := by
    rw [List.take_take, Nat.min_eq_left h]
  rw [h1]
  conv_rhs => rw [← List.take_append_drop m (l.take k)]
  rw [List.sum_append]
  omega

theorem countP_seri (rps : List Nat) (ray k : Nat)
    (hpos : ∀ n ∈ rps, 0 < n) (hk : k < rps.length)
    (hlow : ((rps.take k).sum : Int) ≤ (ray : Int))
    (hhigh : (ray : Int) ≤ ((rps.take (k + 1)).sum : Int) - 1) :
    ((OdimH5.seri rps).countP fun e => (ray : Int) < e) =
      (rps.length - 1 - k) +
        (if (ray : Int) < ((rps.take (k + 1)).sum : Int) - 1 then 1 else 0) := by
  have hn : (OdimH5.seri rps).length = rps.length := OdimH5.seri_length rps
  have hkl : k < (OdimH5.seri rps).length := by rw [hn]; exact hk
  have hget : ∀ i (h : i < (OdimH5.seri rps).length),
      (OdimH5.seri rps)[i] = ((rps.take (i + 1)).sum : Int) - 1 := by
    intro i h
    have h2 := OdimH5.seri_getElem? rps i (by rw [hn] at h; exact h)
    rw [List.getElem?_eq_getElem h] at h2
    exact Option.some.inj h2
  conv_lhs => rw [← List.take_append_drop k (OdimH5.seri rps)]
  rw [List.countP_append]
  have hzero : ((OdimH5.seri rps).take k).countP (fun e => (ray : Int) < e) = 0 := by
    rw [List.countP_eq_zero]
    intro e he
    obtain ⟨i, hi, rfl⟩ := List.mem_iff_getElem.mp he
    rw [List.getElem_take]
    have hik : i < k := by
      rw [List.length_take] at hi
      omega
    have hil : i < (OdimH5.seri rps).length := by
      rw [List.length_take] at hi
      omega
    rw [hget i hil]
    have hmono : ((rps.take (i + 1)).sum : Int) ≤ ((rps.take k).sum : Int) :=
      Int.ofNat_le.mpr (sum_take_mono rps (by omega))
    simp only [decide_eq_true_eq, not_lt]
    omega
  rw [hzero, List.drop_eq_getElem_cons hkl, List.countP_cons]
  have hdropall : ∀ e ∈ (OdimH5.seri rps).drop (k + 1),
      decide ((ray : Int) < e) = true := by
    intro e he
    obtain ⟨j, hj, rfl⟩ := List.mem_iff_getElem.mp he
    rw [List.getElem_drop]
    have hjl : k + 1 + j < (OdimH5.seri rps).length := by
      rw [List.length_drop] at hj
      omega
    rw [hget _ hjl]
    have hk1 : k + 1 < rps.length := by
      rw [List.length_drop, hn] at hj
      omega
    have hstep : (rps.take (k + 1 + 1)).sum = (rps.take (k + 1)).sum +
        rps[k + 1] := List.sum_take_succ _ _ hk1
    have hpos1 : 0 < rps[k + 1] := hpos _ (List.getElem_mem hk1)
    have hmono : (rps.take (k + 1 + 1)).sum ≤ (rps.take (k + 1 + j + 1)).sum :=
      sum_take_mono rps (by omega)
    simp only [decide_eq_true_eq]
    have hc1 : ((rps.take (k + 1 + 1)).sum : Int) ≤
        ((rps.take (k + 1 + j + 1)).sum : Int) := Int.ofNat_le.mpr hmono
    have hc2 : ((rps.take (k + 1 + 1)).sum : Int) =
        ((rps.take (k + 1)).sum : Int) + (rps[k + 1] : Int) := by
      rw [hstep]
      push_cast
      ring
    have hc3 : (0 : Int) < (rps[k + 1] : Int) := by exact_mod_cast hpos1
    omega
  have hfull : ((OdimH5.seri rps).drop (k + 1)).countP
      (fun e => (ray : Int) < e) = rps.length - 1 - k := by
    rw [List.countP_eq_length.mpr hdropall, List.length_drop, hn]
    omega
  rw [hfull, hget k hkl]
  simp only [decide_eq_true_eq]
  omega

/-- C10: for every 0-based ray index, the UF mandatory header records
RayNumber = ray + 1, and SweepNumber = 1 + nsweeps - #{sweeps whose end ray
index strictly exceeds the ray}; when the sweep partition comes from per-sweep
ray counts, a ray strictly before the last ray of its containing 0-based sweep
k gets SweepNumber k + 1, while the last ray of sweep k gets SweepNumber
k + 2. -/
theorem mandatory_header_numbering (rps : List Nat) (r : UFRadar)
    (k ray : Nat) (hpos : ∀ n ∈ rps, 0 < n)
    (hend : r.sweepEndRayIndex = OdimH5.seri rps)
    (hns : r.nsweeps = rps.length) (hk : k < rps.length)
    (hlow : ((rps.take k).sum : Int) ≤ (ray : Int))
    (hhigh : (ray : Int) ≤ ((rps.take (k + 1)).sum : Int) - 1) :
    rayNumber ray = (ray : Int) + 1 ∧
    sweepNumber r ray = 1 + (r.nsweeps : Int) -
      ((r.sweepEndRayIndex.countP fun e => (ray : Int) < e : Nat) : Int) ∧
    ((ray : Int) < ((rps.take (k + 1)).sum : Int) - 1 →
      sweepNumber r ray = (k : Int) + 1) ∧
    ((ray : Int) = ((rps.take (k + 1)).sum : Int) - 1 →
      sweepNumber r ray = (k : Int) + 2) := by
  have hcount := countP_seri rps ray k hpos hk hlow hhigh
  refine ⟨rfl, rfl, ?_, ?_⟩
  · intro hlt
    rw [sweepNumber, hend, hns, hcount, if_pos hlt]
    have hcast : ((rps.length - 1 - k + 1 : Nat) : Int) =
        (rps.length : Int) - k := by
      push_cast [Nat.cast_sub]
      omega
    rw [hcast]
    ring
  · intro heq
    rw [sweepNumber, hend, hns, hcount, if_neg (by omega)]
    have hcast : ((rps.length - 1 - k + 0 : Nat) : Int) =
        (rps.length : Int) - 1 - k := by
      push_cast [Nat.cast_sub]
      omega
    rw [hcast]
    ring

/-- Witness for C10: two sweeps of 2 rays each; ray 0 (first of sweep 0) gets
SweepNumber 1 and ray 1 (last of sweep 0) gets SweepNumber 2. -/
theorem mandatory_header_numbering_witness :
    ((∀ n ∈ ([2, 2] : List Nat), 0 < n) ∧
      (⟨1, 4, 2, OdimH5.seri [2, 2], [], [88], 250⟩ : UFRadar).sweepEndRayIndex =
        OdimH5.seri [2, 2] ∧
      (⟨1, 4, 2, OdimH5.seri [2, 2], [], [88], 250⟩ : UFRadar).nsweeps =
        ([2, 2] : List Nat).length ∧
      0 < ([2, 2] : List Nat).length ∧
      ((([2, 2] : List Nat).take 0).sum : Int) ≤ ((0 : Nat) : Int) ∧
      (((0 : Nat) : Int)) ≤ ((([2, 2] : List Nat).take 1).sum : Int) - 1) ∧
    (rayNumber 0 = ((0 : Nat) : Int) + 1 ∧
      sweepNumber ⟨1, 4, 2, OdimH5.seri [2, 2], [], [88], 250⟩ 0 =
        1 + ((⟨1, 4, 2, OdimH5.seri [2, 2], [], [88], 250⟩ : UFRadar).nsweeps : Int) -
          (((⟨1, 4, 2, OdimH5.seri [2, 2], [], [88], 250⟩ : UFRadar).sweepEndRayIndex.countP
            fun e => ((0 : Nat) : Int) < e : Nat) : Int) ∧
      (((0 : Nat) : Int) < ((([2, 2] : List Nat).take 1).sum : Int) - 1 →
        sweepNumber ⟨1, 4, 2, OdimH5.seri [2, 2], [], [88], 250⟩ 0 = ((0 : Nat) : Int) + 1) ∧
      (((0 : Nat) : Int) = ((([2, 2] : List Nat).take 1).sum : Int) - 1 →
        sweepNumber ⟨1, 4, 2, OdimH5.seri [2, 2], [], [88], 250⟩ 0 = ((0 : Nat) : Int) + 2)) :=
  ⟨⟨by decide, rfl, rfl, by decide, by decide, by decide⟩,
    mandatory_header_numbering [2, 2] ⟨1, 4, 2, OdimH5.seri [2, 2], [], [88], 250⟩
      0 0 (by decide) rfl rfl (by decide) (by decide) (by decide)⟩

end WriteUF
